import Mathlib

/-!
Verification development for the post-generation and response-normalization
pipeline of the AI product-launch generator (src/src/App.tsx).

The embedding models, from the source:
  * the JavaScript-side JSON values and `JSON.parse` (on the fragment of
    JavaScript strings representable as Lean strings; lone UTF-16
    surrogates are out of scope),
  * the fenced-code-block regular-expression search used by the response
    normalizer,
  * the three-stage response normalizer (lines 1718-1757),
  * the `generatePosts` loop (lines 1665-1797) with the AI completion
    adapter abstracted as an oracle from call index to optional reply,
  * `extractWebsiteData` (lines 1598-1663) together with the
    `createNewProject` it awaits (lines 1496-1529), over the slice of the
    session state they touch, with the project-create and scrape adapters
    abstracted as optional results,
  * `togglePlatform` (lines 1877-1882).
-/

namespace LaunchGen

/-- The backquote character, written via its code point. -/
def backquote : Char := Char.ofNat 96

/-- The opening curly brace character. -/
def lbrace : Char := Char.ofNat 123

/-- The closing curly brace character. -/
def rbrace : Char := Char.ofNat 125

/-- JavaScript `String.prototype.length` counts UTF-16 code units:
astral-plane code points (at or above U+10000) count as two. -/
def utf16Len (s : String) : Nat :=
  s.data.foldl (fun n c => n + (if 0x10000 ≤ c.toNat then 2 else 1)) 0

/-- JavaScript `substring(0, n)` counted in UTF-16 code units (a pair is
taken only when it fits entirely; the mid-surrogate cut is not
representable in Lean strings and does not arise in the claims). -/
def utf16TakeAux (n : Nat) : List Char → List Char
  | [] => []
  | c :: cs =>
    let w := if 0x10000 ≤ c.toNat then 2 else 1
    if w ≤ n then c :: utf16TakeAux (n - w) cs else []

/-- `s.substring(0, n)` in UTF-16 code units. -/
def utf16Take (n : Nat) (s : String) : String :=
  String.mk (utf16TakeAux n s.data)

/-- The whitespace class of the JavaScript regex: tab through carriage
return, space, no-break space, BOM, and the Unicode space and
line/paragraph separators. -/
def isJsSpace (c : Char) : Bool :=
  let n := c.toNat
  decide ((9 ≤ n ∧ n ≤ 13) ∨ n = 32 ∨ n = 0xa0 ∨ n = 0x1680 ∨
    (0x2000 ≤ n ∧ n ≤ 0x200a) ∨ n = 0x2028 ∨ n = 0x2029 ∨
    n = 0x202f ∨ n = 0x205f ∨ n = 0x3000 ∨ n = 0xfeff)

/-- JSON insignificant whitespace accepted by `JSON.parse`. -/
def isJsonWs (c : Char) : Bool :=
  c == ' ' || c == '\t' || c == '\n' || c == '\r'

/-- JavaScript values produced by `JSON.parse`. -/
inductive Json where
  | null
  | bool (b : Bool)
  | num (q : ℚ)
  | str (s : String)
  | arr (elems : List Json)
  | obj (fields : List (String × Json))
deriving Repr

/-- Property lookup on a parsed object: with duplicate keys,
`JSON.parse` keeps the last occurrence. -/
def lookupLast (fields : List (String × Json)) (key : String) : Option Json :=
  fields.foldl (fun acc f => if f.1 = key then some f.2 else acc) none

/-- JavaScript property access `v.key` for parsed JSON values:
`undefined` is `none`; only objects carry the parsed fields (array and
primitive receivers yield `undefined` for these property names).  Access
on `null` throws and is handled separately by the caller. -/
def Json.getField : Json → String → Option Json
  | .obj fields, key => lookupLast fields key
  | _, _ => none

/-- JavaScript truthiness of a parsed JSON value. -/
def jsTruthy : Json → Bool
  | .null => false
  | .bool b => b
  | .num q => decide (q ≠ 0)
  | .str s => decide (s ≠ "")
  | .arr _ => true
  | .obj _ => true

/-- Skip JSON insignificant whitespace. -/
def skipWs (cs : List Char) : List Char := cs.dropWhile isJsonWs

/-- Value of one hexadecimal digit. -/
def hexVal (c : Char) : Option Nat :=
  if '0' ≤ c ∧ c ≤ '9' then some (c.toNat - 48)
  else if 'a' ≤ c ∧ c ≤ 'f' then some (c.toNat - 87)
  else if 'A' ≤ c ∧ c ≤ 'F' then some (c.toNat - 55)
  else none

/-- Prepend a character to the collected part of a string-parser result. -/
def consChar (c : Char) : Option (List Char × List Char) →
    Option (List Char × List Char)
  | some (s, r) => some (c :: s, r)
  | none => none

/-- Parse the body of a JSON string (after the opening quote) up to and
including the closing quote, decoding the escapes `JSON.parse` accepts.
A `\uXXXX` high surrogate must be followed by a low-surrogate escape (a
lone surrogate is not representable as a Lean character and is rejected
here). -/
def parseStrAux : Nat → List Char → Option (List Char × List Char)
  | 0, _ => none
  | _ + 1, [] => none
  | fuel + 1, c :: cs =>
    if c = '"' then some ([], cs)
    else if c = '\\' then
      match cs with
      | [] => none
      | e :: cs2 =>
        if e = '"' then consChar '"' (parseStrAux fuel cs2)
        else if e = '\\' then consChar '\\' (parseStrAux fuel cs2)
        else if e = '/' then consChar '/' (parseStrAux fuel cs2)
        else if e = 'b' then consChar '\x08' (parseStrAux fuel cs2)
        else if e = 'f' then consChar '\x0c' (parseStrAux fuel cs2)
        else if e = 'n' then consChar '\n' (parseStrAux fuel cs2)
        else if e = 'r' then consChar '\r' (parseStrAux fuel cs2)
        else if e = 't' then consChar '\t' (parseStrAux fuel cs2)
        else if e = 'u' then
          match cs2 with
          | h1 :: h2 :: h3 :: h4 :: cs3 =>
            match hexVal h1, hexVal h2, hexVal h3, hexVal h4 with
            | some a, some b, some c3, some d =>
              let n := ((a * 16 + b) * 16 + c3) * 16 + d
              if 0xd800 ≤ n ∧ n ≤ 0xdbff then
                match cs3 with
                | '\\' :: 'u' :: g1 :: g2 :: g3 :: g4 :: cs4 =>
                  match hexVal g1, hexVal g2, hexVal g3, hexVal g4 with
                  | some a2, some b2, some c4, some d2 =>
                    let m := ((a2 * 16 + b2) * 16 + c4) * 16 + d2
                    if 0xdc00 ≤ m ∧ m ≤ 0xdfff then
                      consChar
                        (Char.ofNat
                          (0x10000 + (n - 0xd800) * 0x400 + (m - 0xdc00)))
                        (parseStrAux fuel cs4)
                    else none
                  | _, _, _, _ => none
                | _ => none
              else if 0xdc00 ≤ n ∧ n ≤ 0xdfff then none
              else consChar (Char.ofNat n) (parseStrAux fuel cs3)
            | _, _, _, _ => none
          | _ => none
        else none
    else if c.toNat < 0x20 then none
    else consChar c (parseStrAux fuel cs)

/-- Digits of a decimal literal as a natural number. -/
def digitsToNat (ds : List Char) : Nat :=
  ds.foldl (fun n c => n * 10 + (c.toNat - 48)) 0

/-- Parse a JSON number literal (sign, integer part without leading
zeros, optional fraction, optional exponent), with its exact rational
value. -/
def parseNum (cs : List Char) : Option (Json × List Char) :=
  let signAndRest : Bool × List Char :=
    match cs with
    | c :: t => if c = '-' then (true, t) else (false, cs)
    | [] => (false, cs)
  let neg := signAndRest.1
  let cs1 := signAndRest.2
  let intPart : Option (List Char × List Char) :=
    match cs1 with
    | c :: t =>
      if c = '0' then some ([c], t)
      else if c.isDigit then
        some (cs1.takeWhile Char.isDigit, cs1.dropWhile Char.isDigit)
      else none
    | [] => none
  match intPart with
  | none => none
  | some (ids, cs2) =>
    let fracPart : Option (List Char × List Char) :=
      match cs2 with
      | c :: t =>
        if c = '.' then
          let f := t.takeWhile Char.isDigit
          if f = [] then none else some (f, t.dropWhile Char.isDigit)
        else some ([], cs2)
      | [] => some ([], cs2)
    match fracPart with
    | none => none
    | some (fds, cs3) =>
      let expPart : Option (ℤ × List Char) :=
        match cs3 with
        | c :: t =>
          if c = 'e' ∨ c = 'E' then
            let signAndT : Bool × List Char :=
              match t with
              | c2 :: t2 =>
                if c2 = '-' then (true, t2)
                else if c2 = '+' then (false, t2)
                else (false, t)
              | [] => (false, t)
            let eds := signAndT.2.takeWhile Char.isDigit
            if eds = [] then none
            else
              let e : ℤ := digitsToNat eds
              some (if signAndT.1 then -e else e,
                signAndT.2.dropWhile Char.isDigit)
          else some (0, cs3)
        | [] => some (0, cs3)
      match expPart with
      | none => none
      | some (e, cs4) =>
        let mant : ℤ := digitsToNat (ids ++ fds)
        let q : ℚ := (if neg then -mant else mant) *
          (10 : ℚ) ^ (e - (fds.length : ℤ))
        some (.num q, cs4)

mutual

/-- Recursive-descent parser for a JSON value, as accepted by
`JSON.parse`, fuelled by the input length. -/
def parseVal : Nat → List Char → Option (Json × List Char)
  | 0, _ => none
  | fuel + 1, cs =>
    match cs with
    | 'n' :: 'u' :: 'l' :: 'l' :: r => some (.null, r)
    | 't' :: 'r' :: 'u' :: 'e' :: r => some (.bool true, r)
    | 'f' :: 'a' :: 'l' :: 's' :: 'e' :: r => some (.bool false, r)
    | '"' :: r =>
      match parseStrAux (r.length + 1) r with
      | some (chars, r2) => some (.str (String.mk chars), r2)
      | none => none
    | c :: r =>
      if c = lbrace then
        match skipWs r with
        | c2 :: r2 =>
          if c2 = rbrace then some (.obj [], r2)
          else parseObjFields fuel (c2 :: r2) []
        | [] => none
      else if c = '[' then
        match skipWs r with
        | ']' :: r2 => some (.arr [], r2)
        | r2 => parseArrElems fuel r2 []
      else if c = '-' ∨ c.isDigit then parseNum cs
      else none
    | [] => none

/-- Parse the members of a JSON object, starting at a key. -/
def parseObjFields : Nat → List Char → List (String × Json) →
    Option (Json × List Char)
  | 0, _, _ => none
  | fuel + 1, cs, acc =>
    match cs with
    | '"' :: r =>
      match parseStrAux (r.length + 1) r with
      | none => none
      | some (key, r2) =>
        match skipWs r2 with
        | ':' :: r3 =>
          match parseVal fuel (skipWs r3) with
          | none => none
          | some (v, r4) =>
            let acc2 := acc ++ [(String.mk key, v)]
            match skipWs r4 with
            | ',' :: r5 => parseObjFields fuel (skipWs r5) acc2
            | c :: r5 => if c = rbrace then some (.obj acc2, r5) else none
            | [] => none
        | _ => none
    | _ => none

/-- Parse the elements of a JSON array, starting at a value. -/
def parseArrElems : Nat → List Char → List Json →
    Option (Json × List Char)
  | 0, _, _ => none
  | fuel + 1, cs, acc =>
    match parseVal fuel cs with
    | none => none
    | some (v, r) =>
      match skipWs r with
      | ',' :: r2 => parseArrElems fuel (skipWs r2) (acc ++ [v])
      | ']' :: r2 => some (.arr (acc ++ [v]), r2)
      | _ => none

end

/-- The model of JavaScript `JSON.parse`: `none` models a thrown
`SyntaxError`. -/
def jsonParse (s : String) : Option Json :=
  match parseVal (s.length + 1) (skipWs s.data) with
  | some (v, rest) => if skipWs rest = [] then some v else none
  | none => none

/-- Whether the list starts with three backquotes, the closing fence of
the regex. -/
def startsWithTicks (cs : List Char) : Bool :=
  decide (cs.take 3 = [backquote, backquote, backquote])

/-- Whether, after greedily skipping regex whitespace, a closing fence
follows (the `\s*` + backquotes tail of the pattern; the whitespace can
only be consumed greedily since a backquote is not whitespace). -/
def fenceAfterSpaces (cs : List Char) : Bool :=
  startsWithTicks (cs.dropWhile isJsSpace)

/-- The lazy capture of the fenced-block regex after the opening brace:
the shortest run of arbitrary characters up to a closing brace that is
followed by optional whitespace and the closing fence.  Returns the
characters strictly between the braces. -/
def lazyCapture : List Char → Option (List Char)
  | [] => none
  | c :: cs =>
    if c = rbrace ∧ fenceAfterSpaces cs then some []
    else
      match lazyCapture cs with
      | some b => some (c :: b)
      | none => none

/-- Attempt of the regex `triple-backquote (json)? \s* ( brace-object )
\s* triple-backquote` at one start position, returning capture group 1.
The optional `json` tag needs no backtracking: when the input starts
with `json` but the tagged branch fails, the untagged branch would have
to match `\s*` then a brace at the letter `j`, which fails as well. -/
def matchFenceAt (cs : List Char) : Option (List Char) :=
  if cs.take 3 = [backquote, backquote, backquote] then
    let rest := cs.drop 3
    let rest1 := if rest.take 4 = ['j', 's', 'o', 'n'] then rest.drop 4 else rest
    let rest2 := rest1.dropWhile isJsSpace
    match rest2 with
    | c :: body =>
      if c = lbrace then
        match lazyCapture body with
        | some b => some (lbrace :: (b ++ [rbrace]))
        | none => none
      else none
    | [] => none
  else none

/-- Leftmost-first search of the fenced-block regex, as
`String.prototype.match` performs it: try each start position from the
left, first successful position wins. -/
def searchFence : List Char → Option (List Char)
  | [] => none
  | c :: cs =>
    match matchFenceAt (c :: cs) with
    | some cap => some cap
    | none => searchFence cs

/-- `text.match(/β(?:json)?\s*(\x7b[\s\S]*?\x7d)\s*β/)` (β a triple
backquote) as used on line 1729: capture group 1 when the regex
matches. -/
def extractFenced (s : String) : Option String :=
  (searchFence s.data).map String.mk

/-- The literal fallback reasoning of the source. -/
def defaultReasoning : String := "Generated using AI optimization strategies"

/-- `v || fallbackText` for a possibly-undefined property value: the
value when truthy, else the fallback string. -/
def jsOr (v : Option Json) (fallback : String) : Json :=
  match v with
  | some w => if jsTruthy w then w else .str fallback
  | none => .str fallback

/-- JavaScript `.length` of a parsed JSON value: the UTF-16 length of a
string, the element count of an array, the `length` property of an
object when it has one, and `undefined` otherwise.  (A `null` receiver
would throw, but the normalizer only takes `.length` of a value that
was produced by `||`, which is never `null`.) -/
def jsLength : Json → Option Json
  | .str s => some (.num (utf16Len s))
  | .arr xs => some (.num xs.length)
  | .obj fields => lookupLast fields "length"
  | _ => none

/-- The `content`/`characterCount`/`reasoning` triple pushed for one
platform. -/
structure NormResult where
  content : Json
  characterCount : Option Json
  reasoning : Json
deriving Repr

/-- Whether a parsed value is `null` (property access on it throws). -/
def Json.isNull : Json → Bool
  | .null => true
  | _ => false

/-- The body of the `posts.push` record built from a parsed value
(lines 1721-1726 and 1733-1738): `none` models the `TypeError` thrown
by the property access `parsed.content` when `parsed` is `null`, which
the enclosing `catch` absorbs. -/
def attemptPush (parsed : Json) (text : String) : Option NormResult :=
  if parsed.isNull then none
  else
    let contentVal := jsOr (parsed.getField "content") text
    some ⟨contentVal, jsLength contentVal,
      jsOr (parsed.getField "reasoning") defaultReasoning⟩

/-- The final fallback (lines 1741-1746 and 1750-1755): the whole raw
text as content, with the default reasoning. -/
def plainFallback (text : String) : NormResult :=
  ⟨.str text, some (.num (utf16Len text)), .str defaultReasoning⟩

/-- The fenced-block stage (lines 1727-1757): search for a fenced JSON
object; parse the capture; on any failure fall back to the raw text. -/
def fencedFallback (text : String) : NormResult :=
  match extractFenced text with
  | some cap =>
    match jsonParse cap with
    | some parsed =>
      match attemptPush parsed text with
      | some r => r
      | none => plainFallback text
    | none => plainFallback text
  | none => plainFallback text

/-- The three-stage response normalizer (lines 1718-1757): whole-text
`JSON.parse` first, then the fenced block, then the raw text. -/
def normalizeResponse (text : String) : NormResult :=
  match jsonParse text with
  | some parsed =>
    match attemptPush parsed text with
    | some r => r
    | none => fencedFallback text
  | none => fencedFallback text

/-- One entry of the static platform registry. -/
structure Platform where
  id : String
  name : String
  limit : Nat
deriving Repr, DecidableEq

/-- The static platform registry (lines 48-53; the icon and color fields
are presentation-only). -/
def PLATFORMS : List Platform :=
  [⟨"producthunt", "Product Hunt", 260⟩,
   ⟨"twitter", "X (Twitter)", 280⟩,
   ⟨"linkedin", "LinkedIn", 3000⟩,
   ⟨"reddit", "Reddit", 40000⟩]

/-- Scrape metadata: the two fields the app reads. -/
structure ScrapeMeta where
  title : Option String
  description : Option String
deriving Repr

/-- The extracted page stored in `websiteData`. -/
structure WebsiteData where
  url : String
  title : String
  description : String
  content : String
  metadata : ScrapeMeta
deriving Repr

/-- Template-literal interpolation of `platformInfo?.name`: JavaScript
prints `undefined` into the string when the lookup failed. -/
def optName : Option Platform → String
  | some p => p.name
  | none => "undefined"

/-- Template-literal interpolation of `platformInfo?.limit`. -/
def optLimit : Option Platform → String
  | some p => toString p.limit
  | none => "undefined"

/-- The generation prompt of lines 1685-1711, including the registry
lookup `PLATFORMS.find(p => p.id === platform)` and the
`substring(0, 2000)` truncation of the page content. -/
def buildPrompt (w : WebsiteData) (platform : String) : String :=
  let platformInfo := PLATFORMS.find? (fun p => p.id == platform)
  "You are an expert product launch copywriter. Create an optimized launch post for "
    ++ optName platformInfo
    ++ ".\n\nWebsite Information:\n- Title: " ++ w.title
    ++ "\n- Description: " ++ w.description
    ++ "\n- URL: " ++ w.url
    ++ "\n- Content: " ++ utf16Take 2000 w.content
    ++ "...\n\nPlatform: " ++ optName platformInfo
    ++ "\nCharacter Limit: " ++ optLimit platformInfo
    ++ "\n\nRequirements:\n1. Create compelling, engaging copy that drives clicks and engagement\n2. Use proven launch strategies and hooks\n3. Include relevant hashtags and mentions where appropriate\n4. Stay within character limits\n5. Make it platform-specific and optimized\n\nPlease provide:\n1. The final post content\n2. Your reasoning and strategy behind the copy\n\nFormat your response as JSON:\n\x7b\n  \"content\": \"the actual post content\",\n  \"reasoning\": \"explanation of your strategy and choices\"\n\x7d"

/-- One record of the `posts` array built by `generatePosts`. -/
structure GeneratedPost where
  platform : String
  content : Json
  characterCount : Option Json
  reasoning : Json
deriving Repr

/-- Outcome of one run of `generatePosts`, with the prompts of the AI
calls actually issued: `emptyInput` is the precondition branch of lines
1666-1669 (error notice, no call made); `aborted` is the outer `catch`
of line 1787 reached when an AI call rejects (error notice,
`setGeneratedPosts` never runs); `success` is the completed loop with
`setGeneratedPosts posts` on line 1760. -/
inductive GenResult where
  | emptyInput
  | aborted (calls : List String)
  | success (posts : List GeneratedPost) (calls : List String)
deriving Repr

/-- The prompts of the AI calls issued during a run. -/
def callsOf : GenResult → List String
  | .emptyInput => []
  | .aborted calls => calls
  | .success _ calls => calls

/-- The posts stored by a run, when it completed. -/
def postsOf : GenResult → Option (List GeneratedPost)
  | .success posts _ => some posts
  | _ => none

/-- The `for` loop of lines 1678-1758: one AI call per selected
platform, in order; the oracle `ai` maps the call index to the reply
text, `none` modelling a rejected promise, which aborts the whole loop
through the outer `catch`. -/
def genGo (ai : Nat → Option String) (w : WebsiteData) :
    List String → Nat → List GeneratedPost → List String → GenResult
  | [], _, posts, calls => .success posts calls
  | platform :: rest, i, posts, calls =>
    let calls2 := calls ++ [buildPrompt w platform]
    match ai i with
    | none => .aborted calls2
    | some text =>
      let r := normalizeResponse text
      genGo ai w rest (i + 1)
        (posts ++ [⟨platform, r.content, r.characterCount, r.reasoning⟩])
        calls2

/-- `generatePosts` (lines 1665-1797), with the AI completion adapter
abstracted as the oracle `ai`.  Persistence of the posts is external,
caught, and does not affect the result. -/
def generatePosts (ai : Nat → Option String) (websiteData : Option WebsiteData)
    (selectedPlatforms : List String) : GenResult :=
  match websiteData with
  | none => .emptyInput
  | some w =>
    if selectedPlatforms.isEmpty then .emptyInput
    else genGo ai w selectedPlatforms 0 [] []

/-- `value || fallback` for the optional scrape metadata strings (lines
1622-1623): an absent or empty string falls back. -/
def jsStrOr (v : Option String) (fallback : String) : String :=
  match v with
  | some s => if s = "" then fallback else s
  | none => fallback

/-- Outcome of one run of `extractWebsiteData`: the empty-URL notice,
the `catch` of a failed scrape, or a completed extraction carrying the
new page. -/
inductive ExtractResult where
  | invalidInput
  | failed
  | extracted (page : WebsiteData)
deriving Repr

/-- JavaScript `String.prototype.trim()`: strip the WhiteSpace and
LineTerminator characters — the same set the regex whitespace class
matches — from both ends. -/
def jsTrim (s : String) : String :=
  String.mk (((s.data.dropWhile isJsSpace).reverse.dropWhile
    isJsSpace).reverse)

/-- The slice of the component state that `extractWebsiteData` reads
and writes: whether a user is signed in (the `user` state is truthy),
whether a current project is selected (`currentProject` is non-null),
and the stored extracted page (`websiteData`).  The remaining pieces
`createNewProject` resets (the url input field, the platform
selection, the posts list, the chat transcript) are handled by the
other pipeline models of this file and do not feed back into
extraction. -/
structure SessionState where
  user : Bool
  currentProject : Bool
  websiteData : Option WebsiteData
deriving Repr

/-- `createNewProject` (lines 1496-1529): a no-op without a signed-in
user; on a successful `projects.create` the current state is reset —
in particular `setWebsiteData(null)` on line 1515 clears the stored
page — and the new project becomes current; a failed create is caught
inside the function and changes nothing.  `projectCreate` abstracts
the `blink.db.projects.create` call, `false` modelling a rejection. -/
def createNewProject (projectCreate : Bool) (st : SessionState) :
    SessionState :=
  if !st.user then st
  else if projectCreate then
    { st with websiteData := none, currentProject := true }
  else st

/-- `extractWebsiteData` (lines 1598-1663) with the external calls
abstracted (`scrapeResult = none` models a rejected
`blink.data.scrape`): after the empty-URL precondition, a missing
current project with a signed-in user first awaits
`createNewProject()` (line 1606) — whose success clears the stored
page — and only then scrapes.  The scrape `catch` writes no state
itself; scrape success replaces the page wholesale with the completely
built record.  Project auto-save is external, caught, and does not
affect the page. -/
def extractWebsiteData (projectCreate : Bool)
    (scrapeResult : Option (String × ScrapeMeta))
    (websiteUrl : String) (st : SessionState) :
    SessionState × ExtractResult :=
  if jsTrim websiteUrl = "" then (st, .invalidInput)
  else
    let st2 := if !st.currentProject && st.user then
      createNewProject projectCreate st else st
    match scrapeResult with
    | none => (st2, .failed)
    | some (markdown, metadata) =>
      let page : WebsiteData := ⟨websiteUrl, jsStrOr metadata.title "Untitled",
        jsStrOr metadata.description "", markdown, metadata⟩
      ({ st2 with websiteData := some page }, .extracted page)

/-- `togglePlatform` (lines 1877-1882): remove the id when present
(JavaScript `filter` with `!==`), else append it. -/
def togglePlatform (selected : List String) (platformId : String) :
    List String :=
  if selected.contains platformId then
    selected.filter (fun id => id != platformId)
  else selected ++ [platformId]

/-! Theorems. -/

/-- Claim C10: togglePlatform flips exactly the given id's membership in
the selection: toggling twice with the same id preserves the set of
selected ids; when the id was not initially selected the double
application restores the list exactly; and the relative order of the
other ids (the sublist of ids different from the toggled one) is never
changed by a toggle. -/
theorem togglePlatform_flips_membership (selected : List String) (p : String) :
    (p ∈ togglePlatform selected p ↔ p ∉ selected) ∧
    (∀ x, x ∈ togglePlatform (togglePlatform selected p) p ↔ x ∈ selected) ∧
    (p ∉ selected → togglePlatform (togglePlatform selected p) p = selected) ∧
    (togglePlatform selected p).filter (fun x => x != p) =
      selected.filter (fun x => x != p) := by
  by_cases hp : p ∈ selected
  · have h1 : togglePlatform selected p = selected.filter (fun x => x != p) := by
      simp only [togglePlatform]
      rw [if_pos (List.elem_iff.mpr hp)]
    have hnot : p ∉ selected.filter (fun x => x != p) := by
      simp [List.mem_filter]
    have h2 : togglePlatform (togglePlatform selected p) p =
        selected.filter (fun x => x != p) ++ [p] := by
      rw [h1]
      simp only [togglePlatform]
      rw [if_neg (fun hc => hnot (List.elem_iff.mp hc))]
    refine ⟨?_, ?_, ?_, ?_⟩
    · rw [h1]; simp [hp, List.mem_filter]
    · intro x
      rw [h2]
      simp only [List.mem_append, List.mem_filter, List.mem_singleton,
        bne_iff_ne, ne_eq, decide_eq_true_eq]
      constructor
      · rintro (⟨hx, _⟩ | rfl) <;> [exact hx; exact hp]
      · intro hx
        by_cases hxp : x = p
        · exact Or.inr hxp
        · exact Or.inl ⟨hx, hxp⟩
    · intro hcon; exact absurd hp hcon
    · rw [h1, List.filter_filter]; simp
  · have h1 : togglePlatform selected p = selected ++ [p] := by
      simp only [togglePlatform]
      rw [if_neg (fun hc => hp (List.elem_iff.mp hc))]
    have hmem : p ∈ selected ++ [p] := by simp
    have hfil : selected.filter (fun x => x != p) = selected :=
      List.filter_eq_self.mpr (fun a ha => by
        simp only [bne_iff_ne, ne_eq, decide_eq_true_eq]
        rintro rfl; exact hp ha)
    have h2 : togglePlatform (togglePlatform selected p) p = selected := by
      rw [h1]
      simp only [togglePlatform]
      rw [if_pos (List.elem_iff.mpr hmem)]
      rw [List.filter_append, hfil]
      simp
    refine ⟨?_, ?_, fun _ => h2, ?_⟩
    · rw [h1]; simp [hp]
    · intro x; rw [h2]
    · rw [h1, List.filter_append, hfil]; simp

/-- Concrete run of the toggle claim: toggling "twitter" twice on the
default selection restores it, and toggling changes no other id's
position. -/
theorem togglePlatform_flips_membership_witness :
    togglePlatform (togglePlatform ["producthunt"] "twitter") "twitter" =
      ["producthunt"] :=
  (togglePlatform_flips_membership ["producthunt"] "twitter").2.2.1
    (by decide)

/-- Claim C5: for every input string that is neither valid top-level
JSON nor contains a parsable fenced JSON object, the normalizer returns
the raw text itself as content and the literal default reasoning. -/
theorem normalize_plain_fallback (raw : String)
    (h1 : jsonParse raw = none)
    (h2 : ∀ cap, extractFenced raw = some cap → jsonParse cap = none) :
    normalizeResponse raw =
      ⟨.str raw, some (.num (utf16Len raw)), .str defaultReasoning⟩ := by
  cases hf : extractFenced raw with
  | none => simp only [normalizeResponse, fencedFallback, h1, hf]; rfl
  | some cap =>
    simp only [normalizeResponse, fencedFallback, h1, hf, h2 cap hf]
    rfl

/-- Concrete run of claim C5 at the spec's own scenario input. -/
theorem normalize_plain_fallback_witness :
    normalizeResponse "Just buy our widgets" =
      ⟨.str "Just buy our widgets",
        some (.num (utf16Len "Just buy our widgets")),
        .str defaultReasoning⟩ :=
  normalize_plain_fallback "Just buy our widgets" rfl
    (fun cap hcap => Option.noConfusion
      ((rfl : extractFenced "Just buy our widgets" = none) ▸ hcap))

/-- Claim C1 (amended): for every input string that parses as a JSON
object whose `content` field is a non-empty string, the normalizer
returns that field's value as the post content; when the `reasoning`
field is a non-empty string it is returned, and when it is absent the
literal default is used.  (A falsy `content` or `reasoning` — such as
the empty string — instead falls back, which is what forces the
amendment; see the counterexample.) -/
theorem normalize_strict_json (raw : String) (v : Json) (c : String)
    (hparse : jsonParse raw = some v)
    (hc : v.getField "content" = some (.str c))
    (hne : c ≠ "") :
    (normalizeResponse raw).content = .str c ∧
    (∀ r : String, v.getField "reasoning" = some (.str r) → r ≠ "" →
      (normalizeResponse raw).reasoning = .str r) ∧
    (v.getField "reasoning" = none →
      (normalizeResponse raw).reasoning = .str defaultReasoning) := by
  have hnull : v.isNull = false := by
    cases v <;> first
      | rfl
      | exact absurd hc (by simp [Json.getField])
  have hap : attemptPush v raw =
      some ⟨.str c, jsLength (.str c),
        jsOr (v.getField "reasoning") defaultReasoning⟩ := by
    unfold attemptPush
    rw [hnull, hc]
    simp [jsOr, jsTruthy, hne]
  have hnorm : normalizeResponse raw =
      ⟨.str c, jsLength (.str c),
        jsOr (v.getField "reasoning") defaultReasoning⟩ := by
    simp only [normalizeResponse, hparse, hap]
  refine ⟨by rw [hnorm], ?_, ?_⟩
  · intro r hr hrne
    rw [hnorm]
    show jsOr (v.getField "reasoning") defaultReasoning = .str r
    rw [hr]
    simp [jsOr, jsTruthy, hrne]
  · intro hr
    rw [hnorm]
    show jsOr (v.getField "reasoning") defaultReasoning = .str defaultReasoning
    rw [hr]
    rfl

/-- Concrete run of the amended claim C1 at the spec's scenario input:
strict JSON with non-empty `content` and `reasoning` round-trips. -/
theorem normalize_strict_json_witness :
    (normalizeResponse "\x7b\"content\":\"Launching Acme!\",\"reasoning\":\"Short punchy hook\"\x7d").content =
      .str "Launching Acme!" ∧
    (normalizeResponse "\x7b\"content\":\"Launching Acme!\",\"reasoning\":\"Short punchy hook\"\x7d").reasoning =
      .str "Short punchy hook" := by
  have h := normalize_strict_json
    "\x7b\"content\":\"Launching Acme!\",\"reasoning\":\"Short punchy hook\"\x7d"
    (.obj [("content", .str "Launching Acme!"),
      ("reasoning", .str "Short punchy hook")])
    "Launching Acme!" rfl rfl (by decide)
  exact ⟨h.1, h.2.1 "Short punchy hook" rfl (by decide)⟩

/-- Counterexample to claim C1 as stated: the input is a JSON object
with a `content` field (the empty string) and a `reasoning` field (also
empty), yet the normalizer returns the whole raw text as content — not
the field's value — and the default literal as reasoning — not the
present field: `parsed.content || text` and `parsed.reasoning || ...`
fall back on every falsy field value. -/
theorem normalize_strict_json_cex :
    jsonParse "\x7b\"content\":\"\",\"reasoning\":\"\"\x7d" =
      some (.obj [("content", .str ""), ("reasoning", .str "")]) ∧
    (normalizeResponse "\x7b\"content\":\"\",\"reasoning\":\"\"\x7d").content =
      .str "\x7b\"content\":\"\",\"reasoning\":\"\"\x7d" ∧
    (normalizeResponse "\x7b\"content\":\"\",\"reasoning\":\"\"\x7d").content ≠
      .str "" ∧
    (normalizeResponse "\x7b\"content\":\"\",\"reasoning\":\"\"\x7d").reasoning =
      .str defaultReasoning := by
  refine ⟨rfl, rfl, ?_, rfl⟩
  intro h
  rw [show (normalizeResponse "\x7b\"content\":\"\",\"reasoning\":\"\"\x7d").content =
    .str "\x7b\"content\":\"\",\"reasoning\":\"\"\x7d" from rfl] at h
  injection h with h2
  exact absurd h2 (by decide)

/-- Claim C9 (amended): the scrape-failure catch itself writes nothing,
but extraction is non-destructive only when it does not first create a
project: whenever a current project already exists, or no user is
signed in, or the implicit project creation fails, a failed or
rejected scrape (and the empty-URL precondition) leaves the stored
page untouched, and a successful scrape replaces it wholesale with the
completely built record.  When extraction does create a project — a
signed-in user with no current project and a successful create — the
stored page is cleared to null before the scrape, so a scrape failure
then destroys the prior page (see the counterexample). -/
theorem extraction_nondestructive (projectCreate : Bool) (url : String)
    (st : SessionState)
    (hsafe : st.currentProject = true ∨ st.user = false ∨
      projectCreate = false) :
    (extractWebsiteData projectCreate none url st).1.websiteData =
      st.websiteData ∧
    (∀ scrapeResult, jsTrim url = "" →
      (extractWebsiteData projectCreate scrapeResult url st).1.websiteData =
        st.websiteData) ∧
    (∀ markdown metadata, jsTrim url ≠ "" →
      (extractWebsiteData projectCreate (some (markdown, metadata)) url
        st).1.websiteData =
        some ⟨url, jsStrOr metadata.title "Untitled",
          jsStrOr metadata.description "", markdown, metadata⟩) := by
  have hst2 : (if !st.currentProject && st.user then
      createNewProject projectCreate st else st).websiteData =
      st.websiteData := by
    rcases hsafe with h | h | h
    · simp [h]
    · simp [h]
    · by_cases hc : (!st.currentProject && st.user) = true <;>
        simp [hc, createNewProject, h]
  refine ⟨?_, ?_, ?_⟩
  · by_cases hurl : jsTrim url = ""
    · simp [extractWebsiteData, hurl]
    · simp only [extractWebsiteData, if_neg hurl]
      exact hst2
  · intro scrapeResult hurl
    simp [extractWebsiteData, hurl]
  · intro markdown metadata hurl
    simp [extractWebsiteData, hurl]

/-- Concrete run of the amended claim C9: with a current project
already selected, a failed scrape preserves the stored page. -/
theorem extraction_nondestructive_witness :
    (extractWebsiteData false none "https://acme.io"
      ⟨true, true, some ⟨"https://acme.io", "Acme", "Widgets", "stuff",
        ⟨none, none⟩⟩⟩).1.websiteData =
      some ⟨"https://acme.io", "Acme", "Widgets", "stuff", ⟨none, none⟩⟩ :=
  (extraction_nondestructive false "https://acme.io"
    ⟨true, true, some ⟨"https://acme.io", "Acme", "Widgets", "stuff",
      ⟨none, none⟩⟩⟩ (Or.inl rfl)).1

/-- Counterexample to claim C9 as stated: with a signed-in user, no
current project, and a previously stored page, an extraction whose
implicit project creation succeeds and whose scrape then fails ends
with the stored page cleared to null — the prior page is destroyed on
an extraction failure, not left completely untouched. -/
theorem extraction_nondestructive_cex :
    (extractWebsiteData true none "https://acme.io"
      ⟨true, false, some ⟨"https://acme.io", "Acme", "Widgets", "stuff",
        ⟨none, none⟩⟩⟩).1.websiteData = none ∧
    (extractWebsiteData true none "https://acme.io"
      ⟨true, false, some ⟨"https://acme.io", "Acme", "Widgets", "stuff",
        ⟨none, none⟩⟩⟩).2 = .failed ∧
    (⟨true, false, some ⟨"https://acme.io", "Acme", "Widgets", "stuff",
        ⟨none, none⟩⟩⟩ : SessionState).websiteData ≠ none := by
  refine ⟨rfl, rfl, ?_⟩
  simp

/-- Claim C8: generation fails on the empty-input precondition — absent
page or empty platform list — before any AI call: the result does not
depend on the oracle at all and the list of issued calls is empty. -/
theorem generate_empty_input (ai : Nat → Option String)
    (websiteData : Option WebsiteData) (selectedPlatforms : List String)
    (h : websiteData = none ∨ selectedPlatforms = []) :
    generatePosts ai websiteData selectedPlatforms = .emptyInput ∧
    callsOf (generatePosts ai websiteData selectedPlatforms) = [] := by
  rcases h with h | h
  · subst h; exact ⟨rfl, rfl⟩
  · subst h
    cases websiteData with
    | none => exact ⟨rfl, rfl⟩
    | some w => exact ⟨rfl, rfl⟩

/-- Concrete run of claim C8: an empty platform selection issues no AI
call and reports the precondition failure. -/
theorem generate_empty_input_witness :
    generatePosts (fun _ => some "reply")
      (some ⟨"https://acme.io", "Acme", "Widgets", "stuff", ⟨none, none⟩⟩)
      [] = .emptyInput :=
  (generate_empty_input (fun _ => some "reply")
    (some ⟨"https://acme.io", "Acme", "Widgets", "stuff", ⟨none, none⟩⟩)
    [] (Or.inr rfl)).1

/-- Every record built by the push (lines 1721-1726, 1733-1738) carries
`characterCount` computed by `.length` from its own `content`. -/
theorem attemptPush_characterCount (v : Json) (text : String) (r : NormResult)
    (h : attemptPush v text = some r) :
    r.characterCount = jsLength r.content := by
  unfold attemptPush at h
  by_cases hn : v.isNull = true
  · rw [if_pos hn] at h; cases h
  · rw [if_neg hn] at h
    injection h with h2
    subst h2
    rfl

/-- The normalizer always recomputes `characterCount` as the JavaScript
`.length` of the content it returns. -/
theorem normalizeResponse_characterCount (text : String) :
    (normalizeResponse text).characterCount =
      jsLength (normalizeResponse text).content := by
  unfold normalizeResponse fencedFallback
  cases hj : jsonParse text with
  | some v =>
    simp only [hj]
    cases hap : attemptPush v text with
    | some r =>
      simp only [hap]
      exact attemptPush_characterCount v text r hap
    | none =>
      simp only [hap]
      cases hcap : extractFenced text with
      | some cap =>
        simp only [hcap]
        cases hjc : jsonParse cap with
        | some v2 =>
          simp only [hjc]
          cases hap2 : attemptPush v2 text with
          | some r2 =>
            simp only [hap2]
            exact attemptPush_characterCount v2 text r2 hap2
          | none => simp only [hap2]; rfl
        | none => simp only [hjc]; rfl
      | none => simp only [hcap]; rfl
  | none =>
    simp only [hj]
    cases hcap : extractFenced text with
    | some cap =>
      simp only [hcap]
      cases hjc : jsonParse cap with
      | some v2 =>
        simp only [hjc]
        cases hap2 : attemptPush v2 text with
        | some r2 =>
          simp only [hap2]
          exact attemptPush_characterCount v2 text r2 hap2
        | none => simp only [hap2]; rfl
      | none => simp only [hjc]; rfl
    | none => simp only [hcap]; rfl

/-- Every post a completed generation loop appends satisfies the
recomputed-`characterCount` invariant (or was already in the
accumulator). -/
theorem genGo_success_posts (ai : Nat → Option String) (w : WebsiteData) :
    ∀ (sel : List String) (i : Nat) (posts : List GeneratedPost)
      (calls : List String) (posts2 : List GeneratedPost)
      (calls2 : List String),
      genGo ai w sel i posts calls = .success posts2 calls2 →
      ∀ post ∈ posts2,
        post ∈ posts ∨ post.characterCount = jsLength post.content := by
  intro sel
  induction sel with
  | nil =>
    intro i posts calls posts2 calls2 h post hmem
    unfold genGo at h
    injection h with h1 _
    subst h1
    exact Or.inl hmem
  | cons p rest ih =>
    intro i posts calls posts2 calls2 h post hmem
    unfold genGo at h
    cases hai : ai i with
    | none => rw [hai] at h; cases h
    | some t =>
      rw [hai] at h
      have := ih (i + 1)
        (posts ++ [⟨p, (normalizeResponse t).content,
          (normalizeResponse t).characterCount,
          (normalizeResponse t).reasoning⟩])
        (calls ++ [buildPrompt w p]) posts2 calls2 h post hmem
      rcases this with hin | hinv
      · rcases List.mem_append.mp hin with hin2 | hnew
        · exact Or.inl hin2
        · right
          have : post = ⟨p, (normalizeResponse t).content,
              (normalizeResponse t).characterCount,
              (normalizeResponse t).reasoning⟩ := by
            simpa using hnew
          subst this
          exact normalizeResponse_characterCount t
      · exact Or.inr hinv

/-- Claim C6 (amended): every post emitted by a completed generation run
has `characterCount` recomputed from its own content by JavaScript
`.length`; for string content this is the UTF-16 code-unit length — not
the code-point count, which differs on astral-plane characters (see the
counterexample). -/
theorem generated_characterCount (ai : Nat → Option String)
    (websiteData : Option WebsiteData) (sel : List String)
    (posts : List GeneratedPost) (calls : List String)
    (h : generatePosts ai websiteData sel = .success posts calls) :
    ∀ post ∈ posts, post.characterCount = jsLength post.content ∧
      ∀ s, post.content = .str s →
        post.characterCount = some (.num (utf16Len s)) := by
  intro post hmem
  have hbase : post.characterCount = jsLength post.content := by
    cases websiteData with
    | none => simp [generatePosts] at h
    | some w =>
      by_cases hsel : sel.isEmpty = true
      · simp [generatePosts, hsel] at h
      · simp only [generatePosts, hsel] at h
        rcases genGo_success_posts ai w sel 0 [] [] posts calls h post hmem
          with hin | hinv
        · cases hin
        · exact hinv
  refine ⟨hbase, fun s hs => ?_⟩
  rw [hbase, hs]
  rfl

/-- Concrete run of the amended claim C6: a plain-text reply "hello"
yields a post whose `characterCount` is the length of its content. -/
theorem generated_characterCount_witness :
    (GeneratedPost.mk "twitter" (.str "hello")
      (some (.num (utf16Len "hello"))) (.str defaultReasoning)).characterCount =
      some (.num (utf16Len "hello")) :=
  ((generated_characterCount (fun _ => some "hello")
    (some ⟨"https://acme.io", "Acme", "Widgets", "stuff", ⟨none, none⟩⟩)
    ["twitter"]
    [⟨"twitter", .str "hello", some (.num (utf16Len "hello")),
      .str defaultReasoning⟩]
    [buildPrompt ⟨"https://acme.io", "Acme", "Widgets", "stuff", ⟨none, none⟩⟩
      "twitter"] rfl)
    ⟨"twitter", .str "hello", some (.num (utf16Len "hello")),
      .str defaultReasoning⟩ (by simp)).2 "hello" rfl

/-- Counterexample to claim C6 as stated: a post whose content is the
single character U+1F680 (one code point) is emitted with
`characterCount` 2 — the UTF-16 code-unit count JavaScript `.length`
returns — not the exact character length 1. -/
theorem generated_characterCount_cex :
    postsOf (generatePosts (fun _ => some "🚀")
      (some ⟨"https://acme.io", "Acme", "Widgets", "stuff", ⟨none, none⟩⟩)
      ["twitter"]) =
      some [⟨"twitter", .str "🚀", some (.num (utf16Len "🚀")),
        .str defaultReasoning⟩] ∧
    utf16Len "🚀" = 2 ∧ ("🚀").length = 1 :=
  ⟨rfl, rfl, rfl⟩

/-- When every AI call of the loop succeeds, the loop extends the
accumulators with exactly one prompt and one post per selected platform,
in input order. -/
theorem genGo_all_some (ai : Nat → Option String) (w : WebsiteData) :
    ∀ (sel : List String) (i : Nat) (posts : List GeneratedPost)
      (calls : List String),
      (∀ j, j < sel.length → (ai (i + j)).isSome = true) →
      ∃ posts2, genGo ai w sel i posts calls =
        .success (posts ++ posts2) (calls ++ sel.map (buildPrompt w)) ∧
        posts2.map GeneratedPost.platform = sel := by
  intro sel
  induction sel with
  | nil =>
    intro i posts calls _
    exact ⟨[], by simp [genGo], rfl⟩
  | cons p rest ih =>
    intro i posts calls h
    have h0 : (ai i).isSome = true := by
      have := h 0 (by simp)
      simpa using this
    obtain ⟨t, ht⟩ := Option.isSome_iff_exists.mp h0
    have hrest : ∀ j, j < rest.length → (ai (i + 1 + j)).isSome = true := by
      intro j hj
      have := h (j + 1) (by simpa using Nat.succ_lt_succ hj)
      have harith : i + (j + 1) = i + 1 + j := by omega
      rwa [harith] at this
    obtain ⟨posts2, hgo, hmap⟩ := ih (i + 1)
      (posts ++ [⟨p, (normalizeResponse t).content,
        (normalizeResponse t).characterCount,
        (normalizeResponse t).reasoning⟩])
      (calls ++ [buildPrompt w p]) hrest
    refine ⟨⟨p, (normalizeResponse t).content,
        (normalizeResponse t).characterCount,
        (normalizeResponse t).reasoning⟩ :: posts2, ?_, ?_⟩
    · unfold genGo
      rw [ht]
      dsimp only
      rw [hgo]
      simp
    · simp [hmap]

/-- Claim C7: over a non-empty platform list with every AI call
succeeding, the posts stored by `generatePosts` are in the input order
— the emitted platform fields equal the input ids — and the trace of
issued AI calls is exactly one prompt per input id, in input order. -/
theorem generate_order_and_calls (ai : Nat → Option String) (w : WebsiteData)
    (sel : List String) (hne : sel ≠ [])
    (h : ∀ i, i < sel.length → (ai i).isSome = true) :
    callsOf (generatePosts ai (some w) sel) = sel.map (buildPrompt w) ∧
    (postsOf (generatePosts ai (some w) sel)).map
      (fun posts => posts.map GeneratedPost.platform) = some sel := by
  obtain ⟨posts2, hgo, hmap⟩ := genGo_all_some ai w sel 0 [] []
    (by simpa using h)
  have hrun : generatePosts ai (some w) sel =
      .success posts2 (sel.map (buildPrompt w)) := by
    simp only [generatePosts, List.isEmpty_iff, hne, if_false]
    simpa using hgo
  rw [hrun]
  exact ⟨rfl, by simp [postsOf, hmap]⟩

/-- Concrete run of claim C7 at the spec's own instance: platform ids
`twitter` then `linkedin` yield two posts in that order and two AI
calls in that order. -/
theorem generate_order_and_calls_witness :
    callsOf (generatePosts (fun _ => some "post")
      (some ⟨"https://acme.io", "Acme", "Widgets", "stuff", ⟨none, none⟩⟩)
      ["twitter", "linkedin"]) =
      ["twitter", "linkedin"].map
        (buildPrompt ⟨"https://acme.io", "Acme", "Widgets", "stuff",
          ⟨none, none⟩⟩) ∧
    (postsOf (generatePosts (fun _ => some "post")
      (some ⟨"https://acme.io", "Acme", "Widgets", "stuff", ⟨none, none⟩⟩)
      ["twitter", "linkedin"])).map
      (fun posts => posts.map GeneratedPost.platform) =
      some ["twitter", "linkedin"] :=
  generate_order_and_calls (fun _ => some "post")
    ⟨"https://acme.io", "Acme", "Widgets", "stuff", ⟨none, none⟩⟩
    ["twitter", "linkedin"] (by decide) (fun i _ => rfl)

/-- When the AI call at (zero-based) position k of the selection
rejects and all earlier calls succeed, the loop ends in the outer catch
having issued exactly the first k+1 calls, and no posts are stored. -/
theorem genGo_abort (ai : Nat → Option String) (w : WebsiteData) :
    ∀ (sel : List String) (i : Nat) (posts : List GeneratedPost)
      (calls : List String) (k : Nat),
      k < sel.length →
      (∀ j, j < k → (ai (i + j)).isSome = true) →
      ai (i + k) = none →
      genGo ai w sel i posts calls =
        .aborted (calls ++ (sel.take (k + 1)).map (buildPrompt w)) := by
  intro sel
  induction sel with
  | nil =>
    intro i posts calls k hk
    exact absurd hk (by simp)
  | cons p rest ih =>
    intro i posts calls k hk hbefore hfail
    cases k with
    | zero =>
      have h0 : ai i = none := by simpa using hfail
      unfold genGo
      rw [h0]
      simp
    | succ k2 =>
      have h0 : (ai i).isSome = true := by
        have := hbefore 0 (Nat.succ_pos _)
        simpa using this
      obtain ⟨t, ht⟩ := Option.isSome_iff_exists.mp h0
      have hbefore2 : ∀ j, j < k2 → (ai (i + 1 + j)).isSome = true := by
        intro j hj
        have := hbefore (j + 1) (Nat.succ_lt_succ hj)
        have harith : i + (j + 1) = i + 1 + j := by omega
        rwa [harith] at this
      have hfail2 : ai (i + 1 + k2) = none := by
        have harith : i + (k2 + 1) = i + 1 + k2 := by omega
        rwa [harith] at hfail
      have hrec := ih (i + 1)
        (posts ++ [⟨p, (normalizeResponse t).content,
          (normalizeResponse t).characterCount,
          (normalizeResponse t).reasoning⟩])
        (calls ++ [buildPrompt w p]) k2 (by simpa using Nat.lt_of_succ_lt_succ hk)
        hbefore2 hfail2
      unfold genGo
      rw [ht]
      dsimp only
      rw [hrec]
      simp

/-- Claim C2 (amended): an AI-call failure for one platform is not
isolated — it aborts the whole generation through the single outer
catch: the calls after the failing one are never issued (the trace is
exactly the first k+1 prompts) and no posts at all are stored, the
sibling posts generated earlier in the run included. -/
theorem generate_aborts_on_call_failure (ai : Nat → Option String)
    (w : WebsiteData) (sel : List String) (k : Nat)
    (hk : k < sel.length)
    (hbefore : ∀ j, j < k → (ai j).isSome = true)
    (hfail : ai k = none) :
    generatePosts ai (some w) sel =
      .aborted ((sel.take (k + 1)).map (buildPrompt w)) ∧
    postsOf (generatePosts ai (some w) sel) = none := by
  have hne : sel ≠ [] := by
    intro hnil
    rw [hnil] at hk
    exact absurd hk (by simp)
  have hrun : generatePosts ai (some w) sel =
      .aborted ((sel.take (k + 1)).map (buildPrompt w)) := by
    simp only [generatePosts, List.isEmpty_iff, hne, if_false]
    have := genGo_abort ai w sel 0 [] [] k hk (by simpa using hbefore)
      (by simpa using hfail)
    simpa using this
  exact ⟨hrun, by rw [hrun]; rfl⟩

/-- Concrete run of the amended claim C2: with the second of two calls
failing, the run is aborted after both calls and stores nothing. -/
theorem generate_aborts_on_call_failure_witness :
    generatePosts (fun i => if i = 0 then some "ok" else none)
      (some ⟨"https://acme.io", "Acme", "Widgets", "stuff", ⟨none, none⟩⟩)
      ["twitter", "linkedin"] =
      .aborted ((["twitter", "linkedin"].take 2).map
        (buildPrompt ⟨"https://acme.io", "Acme", "Widgets", "stuff",
          ⟨none, none⟩⟩)) ∧
    postsOf (generatePosts (fun i => if i = 0 then some "ok" else none)
      (some ⟨"https://acme.io", "Acme", "Widgets", "stuff", ⟨none, none⟩⟩)
      ["twitter", "linkedin"]) = none :=
  generate_aborts_on_call_failure (fun i => if i = 0 then some "ok" else none)
    ⟨"https://acme.io", "Acme", "Widgets", "stuff", ⟨none, none⟩⟩
    ["twitter", "linkedin"] 1 (by decide)
    (fun j hj => by interval_cases j <;> rfl) rfl

/-- Counterexample to claim C2 as stated: the AI call for the first
platform succeeds and the one for the second fails, yet no post is
stored for the first platform (the whole run aborts), contradicting
"still emits posts for every other platform". -/
theorem generate_isolation_cex :
    postsOf (generatePosts (fun i => if i = 0 then some "first ok" else none)
      (some ⟨"https://acme.io", "Acme", "Widgets", "stuff", ⟨none, none⟩⟩)
      ["twitter", "linkedin"]) = none ∧
    (fun i => if i = 0 then some "first ok" else (none : Option String)) 0 =
      some "first ok" :=
  ⟨rfl, rfl⟩

/-- Claim C3 (amended): a platform id that does not resolve in the
registry is not skipped: the registry lookup yields `undefined`, which
the prompt template interpolates as the string "undefined", the AI call
is still issued, and a post is still emitted for the unresolved id (its
platform field is the unresolved id). -/
theorem generate_unresolved_not_skipped (ai : Nat → Option String)
    (w : WebsiteData) (p : String) (t : String)
    (hun : PLATFORMS.find? (fun q => q.id == p) = none)
    (hai : ai 0 = some t) :
    optName (PLATFORMS.find? (fun q => q.id == p)) = "undefined" ∧
    callsOf (generatePosts ai (some w) [p]) = [buildPrompt w p] ∧
    (postsOf (generatePosts ai (some w) [p])).map
      (fun posts => posts.map GeneratedPost.platform) = some [p] := by
  refine ⟨by rw [hun]; rfl, ?_, ?_⟩
  · simp [generatePosts, genGo, hai, callsOf]
  · simp [generatePosts, genGo, hai, postsOf]

/-- Concrete run of the amended claim C3: the id "myspace" resolves to
no registry entry, yet one AI call is made and one post with platform
"myspace" is emitted. -/
theorem generate_unresolved_not_skipped_witness :
    optName (PLATFORMS.find? (fun q => q.id == "myspace")) = "undefined" ∧
    callsOf (generatePosts (fun _ => some "reply")
      (some ⟨"https://acme.io", "Acme", "Widgets", "stuff", ⟨none, none⟩⟩)
      ["myspace"]) =
      [buildPrompt ⟨"https://acme.io", "Acme", "Widgets", "stuff",
        ⟨none, none⟩⟩ "myspace"] ∧
    (postsOf (generatePosts (fun _ => some "reply")
      (some ⟨"https://acme.io", "Acme", "Widgets", "stuff", ⟨none, none⟩⟩)
      ["myspace"])).map
      (fun posts => posts.map GeneratedPost.platform) = some ["myspace"] :=
  generate_unresolved_not_skipped (fun _ => some "reply")
    ⟨"https://acme.io", "Acme", "Widgets", "stuff", ⟨none, none⟩⟩
    "myspace" "reply" rfl rfl

/-- Counterexample to claim C3 as stated: "bogus" resolves to no entry
of the registry, yet the pipeline does not skip it — the output
contains a post whose platform field is "bogus", so the output sequence
does not contain posts only for resolvable ids. -/
theorem generate_skips_unresolved_cex :
    PLATFORMS.find? (fun q => q.id == "bogus") = none ∧
    postsOf (generatePosts (fun _ => some "hi")
      (some ⟨"https://acme.io", "Acme", "Widgets", "stuff", ⟨none, none⟩⟩)
      ["bogus"]) =
      some [⟨"bogus", .str "hi", some (.num (utf16Len "hi")),
        .str defaultReasoning⟩] :=
  ⟨rfl, rfl⟩

/-- A regex attempt at a position whose first character is not a
backquote fails. -/
theorem matchFenceAt_cons_ne (c : Char) (cs : List Char)
    (hc : c ≠ backquote) : matchFenceAt (c :: cs) = none := by
  unfold matchFenceAt
  rw [if_neg]
  intro h
  rw [List.take_succ_cons] at h
  injection h with h1 _
  exact hc h1

/-- The leftmost-position scan passes over a backquote-free prefix. -/
theorem searchFence_append (pre rest : List Char)
    (h : ∀ c ∈ pre, c ≠ backquote) :
    searchFence (pre ++ rest) = searchFence rest := by
  induction pre with
  | nil => rfl
  | cons c pre2 ih =>
    have hc : c ≠ backquote := h c (by simp)
    have h2 : ∀ x ∈ pre2, x ≠ backquote := fun x hx => h x (by simp [hx])
    rw [List.cons_append]
    show (match matchFenceAt (c :: (pre2 ++ rest)) with
      | some cap => some cap
      | none => searchFence (pre2 ++ rest)) = searchFence rest
    rw [matchFenceAt_cons_ne c _ hc]
    exact ih h2

/-- Dropping while a predicate holds passes over a prefix on which it
holds everywhere. -/
theorem dropWhile_append_all (p : Char → Bool) (l m : List Char)
    (h : l.all p = true) :
    (l ++ m).dropWhile p = m.dropWhile p := by
  induction l with
  | nil => rfl
  | cons c cs ih =>
    simp only [List.all_cons, Bool.and_eq_true] at h
    simp [List.dropWhile_cons, h.1, ih h.2]

/-- A list headed by a non-backquote character does not start a fence. -/
theorem startsWithTicks_cons_ne (c : Char) (cs : List Char)
    (hc : c ≠ backquote) : startsWithTicks (c :: cs) = false := by
  unfold startsWithTicks
  apply decide_eq_false
  intro h
  rw [List.take_succ_cons] at h
  injection h with h1 _
  exact hc h1

/-- After whitespace, a closing fence follows. -/
theorem fenceAfterSpaces_of (ws tail : List Char)
    (h : ws.all isJsSpace = true) :
    fenceAfterSpaces (ws ++ backquote :: backquote :: backquote :: tail) =
      true := by
  unfold fenceAfterSpaces
  rw [dropWhile_append_all _ _ _ h]
  rw [show (backquote :: backquote :: backquote :: tail).dropWhile isJsSpace =
    backquote :: backquote :: backquote :: tail from by
      simp [List.dropWhile_cons, show isJsSpace backquote = false from by decide]]
  rfl

/-- From a backquote-free segment followed by a closing brace, no
closing fence is reachable by skipping whitespace: the first non-space
character is a segment character or the brace, never a backquote. -/
theorem fenceAfterSpaces_no_ticks (b rest : List Char)
    (hb : ∀ c ∈ b, c ≠ backquote) :
    fenceAfterSpaces (b ++ rbrace :: rest) = false := by
  induction b with
  | nil =>
    unfold fenceAfterSpaces
    rw [List.nil_append]
    rw [show (rbrace :: rest).dropWhile isJsSpace = rbrace :: rest from by
      simp [List.dropWhile_cons, show isJsSpace rbrace = false from by decide]]
    exact startsWithTicks_cons_ne rbrace rest (by decide)
  | cons c b2 ih =>
    have hc : c ≠ backquote := hb c (by simp)
    have hb2 : ∀ x ∈ b2, x ≠ backquote := fun x hx => hb x (by simp [hx])
    unfold fenceAfterSpaces
    rw [List.cons_append]
    cases hsp : isJsSpace c with
    | false =>
      rw [show (c :: (b2 ++ rbrace :: rest)).dropWhile isJsSpace =
        c :: (b2 ++ rbrace :: rest) from by simp [List.dropWhile_cons, hsp]]
      exact startsWithTicks_cons_ne c _ hc
    | true =>
      rw [show (c :: (b2 ++ rbrace :: rest)).dropWhile isJsSpace =
        (b2 ++ rbrace :: rest).dropWhile isJsSpace from by
          simp [List.dropWhile_cons, hsp]]
      exact ih hb2

/-- The lazy capture over a backquote-free object body stops exactly at
the object's closing brace when a closing fence follows it. -/
theorem lazyCapture_spec (mid tail : List Char)
    (hmid : ∀ c ∈ mid, c ≠ backquote)
    (hend : fenceAfterSpaces tail = true) :
    lazyCapture (mid ++ rbrace :: tail) = some mid := by
  induction mid with
  | nil =>
    rw [List.nil_append]
    unfold lazyCapture
    rw [if_pos ⟨rfl, hend⟩]
  | cons c mid2 ih =>
    have hc : c ≠ backquote := hmid c (by simp)
    have hmid2 : ∀ x ∈ mid2, x ≠ backquote := fun x hx => hmid x (by simp [hx])
    rw [List.cons_append]
    unfold lazyCapture
    rw [if_neg]
    · rw [ih hmid2]
    · rintro ⟨rfl, hf⟩
      rw [fenceAfterSpaces_no_ticks mid2 tail hmid2] at hf
      cases hf

/-- A whitespace-headed sequence up to an opening brace never reads as
the `json` tag. -/
theorem ws_head_take4_ne (ws1 rest : List Char)
    (h : ws1.all isJsSpace = true) :
    (ws1 ++ lbrace :: rest).take 4 ≠ ['j', 's', 'o', 'n'] := by
  cases ws1 with
  | nil =>
    intro hq
    rw [List.nil_append, List.take_succ_cons] at hq
    injection hq with h1 _
    exact absurd h1 (by decide)
  | cons c t =>
    intro hq
    rw [List.cons_append, List.take_succ_cons] at hq
    injection hq with h1 _
    simp only [List.all_cons, Bool.and_eq_true] at h
    rw [h1] at h
    exact absurd h.1 (by decide)

/-- At the opening of a well-formed fence — optional `json` tag,
whitespace, a backquote-free brace-delimited object, whitespace,
closing fence — the regex attempt succeeds and captures exactly the
object. -/
theorem matchFenceAt_fence (tag : Bool) (ws1 mid ws2 suf : List Char)
    (hws1 : ws1.all isJsSpace = true)
    (hmid : ∀ c ∈ mid, c ≠ backquote)
    (hws2 : ws2.all isJsSpace = true) :
    matchFenceAt (backquote :: backquote :: backquote ::
      ((if tag then ['j', 's', 'o', 'n'] else []) ++ (ws1 ++ (lbrace ::
        (mid ++ rbrace ::
          (ws2 ++ backquote :: backquote :: backquote :: suf)))))) =
      some (lbrace :: (mid ++ [rbrace])) := by
  have hcap : lazyCapture
      (mid ++ rbrace :: (ws2 ++ backquote :: backquote :: backquote :: suf)) =
      some mid :=
    lazyCapture_spec mid _ hmid (fenceAfterSpaces_of ws2 suf hws2)
  have hdrop : (ws1 ++ (lbrace ::
      (mid ++ rbrace ::
        (ws2 ++ backquote :: backquote :: backquote :: suf)))).dropWhile
        isJsSpace =
      lbrace :: (mid ++ rbrace ::
        (ws2 ++ backquote :: backquote :: backquote :: suf)) := by
    rw [dropWhile_append_all _ _ _ hws1]
    simp [List.dropWhile_cons, show isJsSpace lbrace = false from by decide]
  cases tag with
  | true =>
    simp only [if_true]
    unfold matchFenceAt
    simp only [List.drop_succ_cons, List.drop_zero, List.cons_append,
      List.nil_append, List.take_succ_cons, List.take_zero, if_true]
    rw [hdrop]
    dsimp only
    rw [if_pos rfl, hcap]
  | false =>
    simp only [Bool.false_eq_true, if_false]
    unfold matchFenceAt
    simp only [List.drop_succ_cons, List.drop_zero, List.cons_append,
      List.nil_append, List.take_succ_cons, List.take_zero, if_true]
    rw [if_neg (ws_head_take4_ne ws1
      (mid ++ rbrace :: (ws2 ++ backquote :: backquote :: backquote :: suf))
      hws1)]
    rw [hdrop]
    dsimp only
    rw [if_pos rfl, hcap]

/-- A raw AI reply shaped as prose, a fenced JSON object (with or
without the `json` tag), and trailing prose, assembled character-wise:
`pre` + three backquotes + optional tag + whitespace + brace-delimited
object body + whitespace + three backquotes + `suf`. -/
def fencedRaw (pre : List Char) (tag : Bool)
    (ws1 mid ws2 suf : List Char) : List Char :=
  pre ++ [backquote, backquote, backquote] ++
  (if tag then ['j', 's', 'o', 'n'] else []) ++ ws1 ++
  (lbrace :: (mid ++ [rbrace])) ++ ws2 ++
  [backquote, backquote, backquote] ++ suf

/-- On a well-formed fenced reply whose prose and object contain no
backquote, the regex search finds the fence and captures exactly the
object. -/
theorem searchFence_fencedRaw (pre : List Char) (tag : Bool)
    (ws1 mid ws2 suf : List Char)
    (hpre : ∀ ch ∈ pre, ch ≠ backquote)
    (hws1 : ws1.all isJsSpace = true)
    (hmid : ∀ ch ∈ mid, ch ≠ backquote)
    (hws2 : ws2.all isJsSpace = true) :
    searchFence (fencedRaw pre tag ws1 mid ws2 suf) =
      some (lbrace :: (mid ++ [rbrace])) := by
  unfold fencedRaw
  simp only [List.append_assoc, List.cons_append, List.nil_append,
    List.singleton_append]
  rw [searchFence_append pre _ hpre]
  show (match matchFenceAt (backquote :: backquote :: backquote ::
      ((if tag then ['j', 's', 'o', 'n'] else []) ++ (ws1 ++ (lbrace ::
        (mid ++ rbrace ::
          (ws2 ++ backquote :: backquote :: backquote :: suf)))))) with
    | some cap => some cap
    | none => searchFence _) = some (lbrace :: (mid ++ [rbrace]))
  rw [matchFenceAt_fence tag ws1 mid ws2 suf hws1 hmid hws2]

/-- Claim C4 (amended): a raw reply that is not valid top-level JSON
but contains a well-formed fenced code block — backquote-free prose
around it, triple backquote, optional `json` tag, whitespace, a
backquote-free JSON object whose `content` field is a non-empty
string, whitespace, closing triple backquote — normalizes to that
object's `content`.  (The backquote-freedom and the non-empty `content`
are what the code actually requires: the lazy regex capture stops at
the first closing brace followed by a closing-fence pattern, and a
falsy `content` falls back to the whole raw text — see the
counterexample.) -/
theorem normalize_fenced_json (pre : List Char) (tag : Bool)
    (ws1 mid ws2 suf : List Char) (v : Json) (c : String)
    (hpre : ∀ ch ∈ pre, ch ≠ backquote)
    (hws1 : ws1.all isJsSpace = true)
    (hmid : ∀ ch ∈ mid, ch ≠ backquote)
    (hws2 : ws2.all isJsSpace = true)
    (hobj : jsonParse (String.mk (lbrace :: (mid ++ [rbrace]))) = some v)
    (hcontent : v.getField "content" = some (.str c))
    (hcne : c ≠ "")
    (hnotjson : jsonParse (String.mk (fencedRaw pre tag ws1 mid ws2 suf)) =
      none) :
    (normalizeResponse
      (String.mk (fencedRaw pre tag ws1 mid ws2 suf))).content = .str c := by
  have hsearch := searchFence_fencedRaw pre tag ws1 mid ws2 suf hpre hws1
    hmid hws2
  have hext : extractFenced (String.mk (fencedRaw pre tag ws1 mid ws2 suf)) =
      some (String.mk (lbrace :: (mid ++ [rbrace]))) := by
    unfold extractFenced
    rw [show (String.mk (fencedRaw pre tag ws1 mid ws2 suf)).data =
      fencedRaw pre tag ws1 mid ws2 suf from rfl]
    rw [hsearch]
    rfl
  have hnull : v.isNull = false := by
    cases v <;> first
      | rfl
      | exact absurd hcontent (by simp [Json.getField])
  have hap : attemptPush v (String.mk (fencedRaw pre tag ws1 mid ws2 suf)) =
      some ⟨.str c, jsLength (.str c),
        jsOr (v.getField "reasoning") defaultReasoning⟩ := by
    unfold attemptPush
    rw [hnull, hcontent]
    simp [jsOr, jsTruthy, hcne]
  simp only [normalizeResponse, fencedFallback, hnotjson, hext, hobj, hap]

/-- Concrete run of the amended claim C4: prose surrounds a tagged
fence whose object has non-empty `content`; the normalizer extracts it. -/
theorem normalize_fenced_json_witness :
    (normalizeResponse (String.mk (fencedRaw ("Sure: ").data true
      ("\n").data ("\"content\":\"post body\",\"reasoning\":\"why\"").data
      (" ").data (" Done.").data))).content = .str "post body" :=
  normalize_fenced_json ("Sure: ").data true ("\n").data
    ("\"content\":\"post body\",\"reasoning\":\"why\"").data
    (" ").data (" Done.").data
    (.obj [("content", .str "post body"), ("reasoning", .str "why")])
    "post body"
    (by decide) (by decide) (by decide) (by decide)
    rfl rfl (by decide) rfl

/-- Counterexample to claim C4 as stated: the raw text is not valid
top-level JSON and contains a fenced `json` block with a valid object
that has a `content` field (the empty string), yet the normalizer does
not return that field's value — the falsy field makes
`parsed.content || text` fall back to the whole raw text. -/
theorem normalize_fenced_json_cex :
    jsonParse "Note: ```json \x7b\"content\":\"\"\x7d ``` end" = none ∧
    extractFenced "Note: ```json \x7b\"content\":\"\"\x7d ``` end" =
      some "\x7b\"content\":\"\"\x7d" ∧
    jsonParse "\x7b\"content\":\"\"\x7d" =
      some (.obj [("content", .str "")]) ∧
    (normalizeResponse
      "Note: ```json \x7b\"content\":\"\"\x7d ``` end").content =
      .str "Note: ```json \x7b\"content\":\"\"\x7d ``` end" ∧
    (normalizeResponse
      "Note: ```json \x7b\"content\":\"\"\x7d ``` end").content ≠
      .str "" := by
  refine ⟨rfl, rfl, rfl, rfl, ?_⟩
  intro h
  rw [show (normalizeResponse
    "Note: ```json \x7b\"content\":\"\"\x7d ``` end").content =
    .str "Note: ```json \x7b\"content\":\"\"\x7d ``` end" from rfl] at h
  injection h with h2
  exact absurd h2 (by decide)

end LaunchGen
